import Mathlib

/-!
Verification of the `lida::MemoryPool` fixed-size allocator
(`src/include/lida/MemoryPool.hpp`).

The embedding models a chunk's byte buffer as a list of per-slot stored
bytes (`data`), since the intrusive free list only ever reads or writes the
first byte of a slot.  Pointers are abstracted as (chunk identity, slot
index) pairs: every chunk gets a fresh identity (`id`) standing for its
buffer's address range, so `MemoryChunk::contains` becomes an identity test
plus a range check on the slot index.  The pool's `nextId` counter models
the freshness of addresses handed out by `new`.

Checked mode (`NDEBUG` undefined) is modelled by `...Checked` operations
returning `Except PoolError`; unchecked operations are the plain versions.
-/

set_option maxRecDepth 8192

/-- `std::numeric_limits<uint8_t>::max()`: slots per chunk. -/
def chunkMax : Nat := 255

/-- One `detail::MemoryChunk`.  `data` holds, for each of the 255 slots, the
byte stored at the slot's first address (the intrusive free-list link);
`current` and `count` are the `uint8_t` fields of the C++ class. -/
structure MemoryChunk where
  id : Nat
  data : List Nat
  current : Nat
  count : Nat
deriving DecidableEq

/-- Reading the first byte of slot `i`: `data[i * ObjSize]`. -/
def readSlot (d : List Nat) (i : Nat) : Nat := d.getD i 0

/-- The constructor's initialization loop:
`for (i = 0; i < n; i++) data[i * ObjSize] = i + 1;` applied to buffer `d`. -/
def initLoop (d : List Nat) : Nat → List Nat
  | 0 => d
  | n + 1 => (initLoop d n).set n (n + 1)

/-- The slot bytes of a freshly constructed chunk (the `new` buffer is
uninitialized; the loop overwrites every slot, see `initLoop_full`). -/
def initData : List Nat := initLoop (List.replicate chunkMax 0) chunkMax

/-- `MemoryChunk::MemoryChunk()`: `current(0), count(max)`, buffer
initialized by the loop.  `id` is the fresh address of the `new` buffer. -/
def mkChunk (id : Nat) : MemoryChunk :=
  { id := id, data := initData, current := 0, count := chunkMax }

/-- `MemoryChunk::has_space`: `count != 0`. -/
def MemoryChunk.has_space (c : MemoryChunk) : Bool := c.count != 0

/-- `MemoryChunk::is_free`: `count == max`. -/
def MemoryChunk.is_free (c : MemoryChunk) : Bool := c.count == chunkMax

/-- An abstract pointer: the identity of the owning chunk's buffer plus the
slot index within it. -/
structure Ptr where
  chunkId : Nat
  slot : Nat
deriving DecidableEq

/-- `MemoryChunk::contains`: the address lies in
`[data, data + ObjSize * max)`, i.e. same buffer and slot index below 255. -/
def MemoryChunk.contains (c : MemoryChunk) (p : Ptr) : Bool :=
  p.chunkId == c.id && decide (p.slot < chunkMax)

/-- `MemoryChunk::allocate` (unchecked): returns the slot at `current`,
re-heads the free list from that slot's stored byte, decrements `count`. -/
def MemoryChunk.allocate (c : MemoryChunk) : MemoryChunk × Ptr :=
  ({ c with current := readSlot c.data c.current, count := c.count - 1 },
   ⟨c.id, c.current⟩)

/-- `MemoryChunk::deallocate` (unchecked): stores the old `current` into the
freed slot, makes the freed slot the new `current`, increments `count`. -/
def MemoryChunk.deallocate (c : MemoryChunk) (p : Ptr) : MemoryChunk :=
  { c with data := c.data.set p.slot c.current, current := p.slot,
           count := c.count + 1 }

/-- The pool state: the `static std::vector` of chunks, plus a freshness
counter standing for the addresses of future `new` buffers. -/
structure MemoryPool where
  chunks : List MemoryChunk
  nextId : Nat
deriving DecidableEq

/-- A pool before any use: empty chunk vector. -/
def emptyPool : MemoryPool := ⟨[], 0⟩

/-- The scan loop of `MemoryPool::allocate`: first chunk with
`has_space()` is allocated from; `none` when every chunk is full. -/
def allocFirst : List MemoryChunk → Option (List MemoryChunk × Ptr)
  | [] => none
  | c :: cs =>
    if c.has_space then
      some ((c.allocate).1 :: cs, (c.allocate).2)
    else
      match allocFirst cs with
      | some (cs', p) => some (c :: cs', p)
      | none => none

/-- `MemoryPool::allocate` with `size == 1` (unchecked): scan for a chunk
with space, else `emplace_back` a new chunk and allocate from it. -/
def MemoryPool.allocate (s : MemoryPool) : MemoryPool × Ptr :=
  match allocFirst s.chunks with
  | some (cs, p) => (⟨cs, s.nextId⟩, p)
  | none =>
    (⟨s.chunks ++ [((mkChunk s.nextId).allocate).1], s.nextId + 1⟩,
     ((mkChunk s.nextId).allocate).2)

/-- The scan loop of `MemoryPool::deallocate`: the first chunk whose
`contains(ptr)` holds frees the slot and is erased if it became fully
free; if no chunk contains the pointer the loop just ends. -/
def deallocFirst : List MemoryChunk → Ptr → List MemoryChunk
  | [], _ => []
  | c :: cs, p =>
    if c.contains p then
      if (c.deallocate p).is_free then cs else (c.deallocate p) :: cs
    else
      c :: deallocFirst cs p

/-- `MemoryPool::deallocate` (unchecked; the `size` parameter is
`[[maybe_unused]]` and ignored). -/
def MemoryPool.deallocate (s : MemoryPool) (p : Ptr) : MemoryPool :=
  ⟨deallocFirst s.chunks p, s.nextId⟩

/-- The chunk-count target of `MemoryPool::reserve`:
`numElements % max == 0 ? numElements / max : numElements / max + 1`. -/
def ceilChunks (n : Nat) : Nat :=
  if n % chunkMax == 0 then n / chunkMax else n / chunkMax + 1

/-- `MemoryPool::reserve`: `chunks.resize(count)` when `count >
chunks.size()`, appending default-constructed (fully free) chunks. -/
def MemoryPool.reserve (s : MemoryPool) (n : Nat) : MemoryPool :=
  if s.chunks.length < ceilChunks n then
    ⟨s.chunks ++
       (List.range (ceilChunks n - s.chunks.length)).map
         (fun i => mkChunk (s.nextId + i)),
     s.nextId + (ceilChunks n - s.chunks.length)⟩
  else s

/-- The error conditions of checked mode (the `std::runtime_error` throws
under `#ifndef NDEBUG`). -/
inductive PoolError where
  | OutOfCapacity
  | InvalidPointer
  | InvalidSize
deriving DecidableEq

/-- `MemoryChunk::allocate` in checked mode: throws when `!has_space()`. -/
def MemoryChunk.allocateChecked (c : MemoryChunk) :
    Except PoolError (MemoryChunk × Ptr) :=
  if !c.has_space then .error .OutOfCapacity else .ok c.allocate

/-- `MemoryChunk::deallocate` in checked mode: throws when
`!contains(ptr)`. -/
def MemoryChunk.deallocateChecked (c : MemoryChunk) (p : Ptr) :
    Except PoolError MemoryChunk :=
  if !c.contains p then .error .InvalidPointer else .ok (c.deallocate p)

/-- The scan loop of `MemoryPool::allocate` in checked mode. -/
def allocFirstChecked : List MemoryChunk →
    Except PoolError (Option (List MemoryChunk × Ptr))
  | [] => .ok none
  | c :: cs =>
    if c.has_space then
      match c.allocateChecked with
      | .error e => .error e
      | .ok (c', p) => .ok (some (c' :: cs, p))
    else
      match allocFirstChecked cs with
      | .error e => .error e
      | .ok none => .ok none
      | .ok (some (cs', p)) => .ok (some (c :: cs', p))

/-- `MemoryPool::allocate` in checked mode: validates `size == 1` before
the scan, then behaves as the unchecked version (each chunk-level call
carries its own check). -/
def MemoryPool.allocateChecked (s : MemoryPool) (size : Nat) :
    Except PoolError (MemoryPool × Ptr) :=
  if size != 1 then .error .InvalidSize
  else
    match allocFirstChecked s.chunks with
    | .error e => .error e
    | .ok (some (cs, p)) => .ok (⟨cs, s.nextId⟩, p)
    | .ok none =>
      match (mkChunk s.nextId).allocateChecked with
      | .error e => .error e
      | .ok (c', p) => .ok (⟨s.chunks ++ [c'], s.nextId + 1⟩, p)

/-- The scan loop of `MemoryPool::deallocate` in checked mode. -/
def deallocFirstChecked : List MemoryChunk → Ptr →
    Except PoolError (List MemoryChunk)
  | [], _ => .ok []
  | c :: cs, p =>
    if c.contains p then
      match c.deallocateChecked p with
      | .error e => .error e
      | .ok c' => .ok (if c'.is_free then cs else c' :: cs)
    else
      match deallocFirstChecked cs p with
      | .error e => .error e
      | .ok cs' => .ok (c :: cs')

/-- `MemoryPool::deallocate` in checked mode.  Note: the function body has
no validation of `size` (the parameter is `[[maybe_unused]]`). -/
def MemoryPool.deallocateChecked (s : MemoryPool) (p : Ptr)
    (_size : Nat) : Except PoolError MemoryPool :=
  match deallocFirstChecked s.chunks p with
  | .error e => .error e
  | .ok cs => .ok ⟨cs, s.nextId⟩

/-- Iterated single-object allocation (the pointers are dropped). -/
def allocN : Nat → MemoryPool → MemoryPool
  | 0, s => s
  | n + 1, s => allocN n (s.allocate).1

/-- The free list of a chunk: starting at `cur`, follow the stored byte of
each visited slot, `n` times. -/
def freeChain (d : List Nat) : Nat → Nat → List Nat
  | _, 0 => []
  | cur, n + 1 => cur :: freeChain d (readSlot d cur) n

/-- The free list of a chunk in its current state. -/
def chainOf (c : MemoryChunk) : List Nat := freeChain c.data c.current c.count

/-- Structural health of one chunk: full-size buffer, and the free list
visits `count` distinct in-range slots. -/
def ChunkInv (c : MemoryChunk) : Prop :=
  c.data.length = chunkMax ∧ (∀ i ∈ chainOf c, i < chunkMax) ∧
    (chainOf c).Nodup

/-- Structural health of the pool: buffer identities are pairwise distinct
(disjoint address ranges), below the freshness counter, and every chunk is
healthy. -/
def PoolInv (s : MemoryPool) : Prop :=
  (s.chunks.map MemoryChunk.id).Nodup ∧
    ∀ c ∈ s.chunks, ChunkInv c ∧ c.id < s.nextId

/-- A pool together with the pointers currently outstanding (allocated and
not yet freed) — the view of a contract-respecting caller. -/
structure World where
  pool : MemoryPool
  out : List Ptr
deriving DecidableEq

/-- The states reachable from a fresh pool by contract-respecting
`allocate`/`deallocate` calls: `deallocate` is only applied to an
outstanding pointer, exactly once. -/
inductive Reach : World → Prop where
  | empty : Reach ⟨emptyPool, []⟩
  | alloc (w : World) (h : Reach w) :
      Reach ⟨(w.pool.allocate).1, (w.pool.allocate).2 :: w.out⟩
  | dealloc (w : World) (p : Ptr) (h : Reach w) (hp : p ∈ w.out) :
      Reach ⟨w.pool.deallocate p, w.out.erase p⟩

/-- The full inductive invariant: structural pool health, outstanding
pointers pairwise distinct, every outstanding pointer resolving to a live
chunk whose free list avoids its slot, and no retained chunk fully free. -/
def WorldInv (w : World) : Prop :=
  PoolInv w.pool ∧ w.out.Nodup ∧
    (∀ p ∈ w.out, ∃ c ∈ w.pool.chunks,
       p.chunkId = c.id ∧ p.slot < chunkMax ∧ p.slot ∉ chainOf c) ∧
    (∀ c ∈ w.pool.chunks, c.count ≠ chunkMax)

/-- The template-level identity of a `MemoryPool<T, G>` instantiation: the
element type and the group tag.  The `static` chunk vector of
`get_chunks()` is one per such identity. -/
structure PoolType where
  ty : String
  group : Nat
deriving DecidableEq

/-- `MemoryPool<T, G>::rebind<U>::other = MemoryPool<U>`: the group
parameter is left to its default `0`. -/
def PoolType.rebind (_k : PoolType) (u : String) : PoolType := ⟨u, 0⟩

lemma readSlot_set_ne {d : List Nat} {j i : Nat} (h : i ≠ j) (v : Nat) :
    readSlot (d.set j v) i = readSlot d i := by
  simp [readSlot, List.getD_eq_getElem?_getD, List.getElem?_set_ne (Ne.symm h)]

lemma readSlot_set_self {d : List Nat} {i : Nat} (h : i < d.length) (v : Nat) :
    readSlot (d.set i v) i = v := by
  simp [readSlot, List.getD_eq_getElem?_getD, List.getElem?_set_self h]

lemma readSlot_lt {d : List Nat} {i : Nat} (h : i < d.length) :
    readSlot d i = d[i] := by
  simp [readSlot, List.getD_eq_getElem?_getD, List.getElem?_eq_getElem h]

lemma set_readSlot_self : ∀ (d : List Nat) (i : Nat), i < d.length →
    d.set i (readSlot d i) = d := by
  intro d
  induction d with
  | nil => intro i h; simp at h
  | cons a d ih =>
    intro i h
    cases i with
    | zero => simp [readSlot]
    | succ i =>
      have h' : i < d.length := by simpa using h
      have hr : readSlot (a :: d) (i + 1) = readSlot d i := by
        simp [readSlot, List.getD_eq_getElem?_getD]
      show a :: d.set i (readSlot (a :: d) (i + 1)) = a :: d
      rw [hr, ih i h']

lemma initLoop_length (d : List Nat) : ∀ n, (initLoop d n).length = d.length := by
  intro n
  induction n with
  | zero => rfl
  | succ n ih => simp [initLoop, List.length_set, ih]

lemma readSlot_initLoop (d : List Nat) :
    ∀ n, n ≤ d.length → ∀ i, readSlot (initLoop d n) i =
      if i < n then i + 1 else readSlot d i := by
  intro n
  induction n with
  | zero => simp [initLoop]
  | succ n ih =>
    intro hn i
    have hn' : n ≤ d.length := Nat.le_of_succ_le hn
    by_cases hi : i = n
    · subst hi
      have hlen : i < (initLoop d i).length := by rw [initLoop_length]; omega
      rw [initLoop, readSlot_set_self hlen]
      simp
    · rw [initLoop, readSlot_set_ne hi, ih hn' i]
      by_cases h2 : i < n
      · simp [h2, Nat.lt_succ_of_lt h2]
      · have h3 : ¬ i < n + 1 := by omega
        simp [h2, h3]

lemma readSlot_initLoop_ge (d : List Nat) :
    ∀ n i, n ≤ i → readSlot (initLoop d n) i = readSlot d i := by
  intro n
  induction n with
  | zero => intro i _; rfl
  | succ n ih =>
    intro i h
    rw [initLoop, readSlot_set_ne (by omega), ih i (by omega)]

lemma freeChain_length (d : List Nat) : ∀ n cur, (freeChain d cur n).length = n := by
  intro n
  induction n with
  | zero => intro cur; rfl
  | succ n ih => intro cur; simp [freeChain, ih]

lemma chainOf_length (c : MemoryChunk) : (chainOf c).length = c.count :=
  freeChain_length c.data c.count c.current

lemma freeChain_set_ne (d : List Nat) :
    ∀ n cur j v, (∀ i ∈ freeChain d cur n, i ≠ j) →
      freeChain (d.set j v) cur n = freeChain d cur n := by
  intro n
  induction n with
  | zero => intros; rfl
  | succ n ih =>
    intro cur j v h
    have hcur : cur ≠ j := h cur (by simp [freeChain])
    simp only [freeChain, readSlot_set_ne hcur]
    congr 1
    exact ih _ j v fun i hi => h i (by simp [freeChain, hi])

lemma initData_eq : initData = (List.range chunkMax).map (· + 1) := by
  apply List.ext_getElem
  · simp [initData, initLoop_length]
  · intro n h1 h2
    have hn : n < chunkMax := by
      simpa [initData, initLoop_length] using h1
    have h3 : readSlot initData n =
        if n < chunkMax then n + 1 else readSlot (List.replicate chunkMax 0) n :=
      readSlot_initLoop (List.replicate chunkMax 0) chunkMax (by simp) n
    rw [← readSlot_lt h1, h3]
    simp [hn, List.getElem_map, List.getElem_range]

lemma initData_length : initData.length = chunkMax := by
  simp [initData_eq]

lemma readSlot_initData {k : Nat} (h : k < chunkMax) :
    readSlot initData k = k + 1 := by
  have hk : k < initData.length := by rw [initData_length]; exact h
  rw [readSlot_lt hk]
  simp only [initData_eq]
  simp [List.getElem_map, List.getElem_range]

lemma freeChain_initData : ∀ n k, k + n ≤ chunkMax →
    freeChain initData k n = List.range' k n := by
  intro n
  induction n with
  | zero => intros; rfl
  | succ n ih =>
    intro k h
    have hk : k < chunkMax := by omega
    simp only [freeChain, readSlot_initData hk]
    rw [ih (k + 1) (by omega)]
    rfl

lemma chainOf_mkChunk (id : Nat) : chainOf (mkChunk id) = List.range chunkMax := by
  show freeChain initData 0 chunkMax = List.range chunkMax
  rw [List.range_eq_range']
  exact freeChain_initData chunkMax 0 (by omega)

lemma chunkInv_mkChunk (id : Nat) : ChunkInv (mkChunk id) := by
  refine ⟨initData_length, ?_, ?_⟩
  · rw [chainOf_mkChunk]
    intro i hi
    exact List.mem_range.mp hi
  · rw [chainOf_mkChunk]
    exact List.nodup_range _

lemma has_space_iff {c : MemoryChunk} : c.has_space = true ↔ c.count ≠ 0 := by
  simp [MemoryChunk.has_space]

lemma is_free_iff {c : MemoryChunk} : c.is_free = true ↔ c.count = chunkMax := by
  simp [MemoryChunk.is_free]

lemma contains_iff {c : MemoryChunk} {p : Ptr} :
    c.contains p = true ↔ p.chunkId = c.id ∧ p.slot < chunkMax := by
  simp [MemoryChunk.contains]

lemma chain_allocate {c : MemoryChunk} (hs : c.has_space = true) :
    chainOf c = c.current :: chainOf (c.allocate).1 := by
  obtain ⟨k, hk⟩ := Nat.exists_eq_succ_of_ne_zero (has_space_iff.mp hs)
  show freeChain c.data c.current c.count =
    c.current :: freeChain c.data (readSlot c.data c.current) (c.count - 1)
  rw [hk]
  rfl

lemma chunkInv_allocate {c : MemoryChunk} (hc : ChunkInv c)
    (hs : c.has_space = true) : ChunkInv (c.allocate).1 := by
  obtain ⟨hlen, hmem, hnd⟩ := hc
  have hchain := chain_allocate hs
  refine ⟨hlen, ?_, ?_⟩
  · intro i hi
    exact hmem i (by rw [hchain]; exact List.mem_cons_of_mem _ hi)
  · rw [hchain] at hnd
    exact (List.nodup_cons.mp hnd).2

lemma chain_deallocate {c : MemoryChunk} {p : Ptr} (hc : ChunkInv c)
    (hlt : p.slot < chunkMax) (hns : p.slot ∉ chainOf c) :
    chainOf (c.deallocate p) = p.slot :: chainOf c := by
  obtain ⟨hlen, hmem, hnd⟩ := hc
  show freeChain (c.data.set p.slot c.current) p.slot (c.count + 1) =
    p.slot :: freeChain c.data c.current c.count
  simp only [freeChain]
  rw [readSlot_set_self (by rw [hlen]; exact hlt)]
  congr 1
  exact freeChain_set_ne c.data c.count c.current p.slot c.current
    fun i hi he => hns (he ▸ hi)

lemma chunkInv_deallocate {c : MemoryChunk} {p : Ptr} (hc : ChunkInv c)
    (hlt : p.slot < chunkMax) (hns : p.slot ∉ chainOf c) :
    ChunkInv (c.deallocate p) := by
  have hchain := chain_deallocate hc hlt hns
  obtain ⟨hlen, hmem, hnd⟩ := hc
  refine ⟨by simp [MemoryChunk.deallocate, List.length_set, hlen], ?_, ?_⟩
  · intro i hi
    rw [hchain] at hi
    rcases List.mem_cons.mp hi with h | h
    · rw [h]; exact hlt
    · exact hmem i h
  · rw [hchain]
    exact List.nodup_cons.mpr ⟨hns, hnd⟩

lemma count_le_chunkMax {c : MemoryChunk} (hc : ChunkInv c) :
    c.count ≤ chunkMax := by
  have hsub : chainOf c ⊆ List.range chunkMax :=
    fun i hi => List.mem_range.mpr (hc.2.1 i hi)
  have := (List.Nodup.subperm hc.2.2 hsub).length_le
  rw [chainOf_length] at this
  simpa using this

lemma chunk_full_mem {c : MemoryChunk} (hc : ChunkInv c)
    (h : c.count = chunkMax) {i : Nat} (hi : i < chunkMax) : i ∈ chainOf c := by
  have hsub : chainOf c ⊆ List.range chunkMax :=
    fun j hj => List.mem_range.mpr (hc.2.1 j hj)
  have hsp := List.Nodup.subperm hc.2.2 hsub
  have hperm := hsp.perm_of_length_le (by rw [chainOf_length, h]; simp)
  exact hperm.mem_iff.mpr (List.mem_range.mpr hi)

lemma allocFirst_none : ∀ {cs : List MemoryChunk},
    allocFirst cs = none ↔ ∀ c ∈ cs, c.has_space = false := by
  intro cs
  induction cs with
  | nil => simp [allocFirst]
  | cons c cs ih =>
    cases hsp : c.has_space with
    | true => simp [allocFirst, hsp]
    | false =>
      cases heq : allocFirst cs with
      | none =>
        simp only [allocFirst, hsp, Bool.false_eq_true, if_false, heq]
        simp [hsp]
        exact ih.mp heq
      | some r =>
        obtain ⟨cs', p⟩ := r
        simp only [allocFirst, hsp, Bool.false_eq_true, if_false, heq]
        constructor
        · intro h; exact absurd h (by simp)
        · intro h
          have : allocFirst cs = none := ih.mpr fun c₀ h₀ => h c₀ (by simp [h₀])
          rw [this] at heq
          exact absurd heq (by simp)

lemma allocFirst_some : ∀ {cs cs' : List MemoryChunk} {p : Ptr},
    allocFirst cs = some (cs', p) →
    ∃ l₁ c l₂, cs = l₁ ++ c :: l₂ ∧ (∀ c₀ ∈ l₁, c₀.has_space = false) ∧
      c.has_space = true ∧ cs' = l₁ ++ (c.allocate).1 :: l₂ ∧
      p = (c.allocate).2 := by
  intro cs
  induction cs with
  | nil => intro cs' p h; exact absurd h (by simp [allocFirst])
  | cons c cs ih =>
    intro cs' p h
    cases hsp : c.has_space with
    | true =>
      rw [allocFirst, if_pos hsp] at h
      have h' : (c.allocate).1 :: cs = cs' ∧ (c.allocate).2 = p := by
        simpa using h
      exact ⟨[], c, cs, rfl, by simp, hsp,
        by rw [← h'.1, List.nil_append], h'.2.symm⟩
    | false =>
      cases heq : allocFirst cs with
      | none =>
        rw [allocFirst, if_neg (by simp [hsp]), heq] at h
        exact absurd h (by simp)
      | some r =>
        obtain ⟨cs₀, p₀⟩ := r
        rw [allocFirst, if_neg (by simp [hsp]), heq] at h
        obtain ⟨hcs', hp⟩ : c :: cs₀ = cs' ∧ p₀ = p := by
          simpa using h
        obtain ⟨l₁, cc, l₂, hsplit, hl₁, hspc, hcs0, hp0⟩ := ih heq
        refine ⟨c :: l₁, cc, l₂, by rw [hsplit, List.cons_append], ?_, hspc,
          ?_, hp ▸ hp0⟩
        · intro c₀ hc₀
          rcases List.mem_cons.mp hc₀ with h0 | h0
          · rw [h0]; exact hsp
          · exact hl₁ c₀ h0
        · rw [← hcs', hcs0, List.cons_append]

lemma deallocFirst_id : ∀ {cs : List MemoryChunk} {p : Ptr},
    (∀ c ∈ cs, c.contains p = false) → deallocFirst cs p = cs := by
  intro cs
  induction cs with
  | nil => intros; rfl
  | cons c cs ih =>
    intro p h
    have hc : c.contains p = false := h c (by simp)
    rw [deallocFirst, if_neg (by simp [hc]), ih fun c₀ h₀ => h c₀ (by simp [h₀])]

lemma deallocFirst_split : ∀ (l₁ : List MemoryChunk) {c : MemoryChunk}
    (l₂ : List MemoryChunk) {p : Ptr},
    (∀ c₀ ∈ l₁, c₀.contains p = false) → c.contains p = true →
    deallocFirst (l₁ ++ c :: l₂) p =
      l₁ ++ (if (c.deallocate p).is_free then l₂ else (c.deallocate p) :: l₂) := by
  intro l₁
  induction l₁ with
  | nil =>
    intro c l₂ p _ hc
    rw [List.nil_append, List.nil_append, deallocFirst, if_pos hc]
  | cons a l₁ ih =>
    intro c l₂ p h hc
    have ha : a.contains p = false := h a (by simp)
    rw [List.cons_append, deallocFirst, if_neg (by simp [ha]),
      ih l₂ (fun c₀ h₀ => h c₀ (by simp [h₀])) hc, List.cons_append]

lemma deallocFirstChecked_eq : ∀ (cs : List MemoryChunk) (p : Ptr),
    deallocFirstChecked cs p = .ok (deallocFirst cs p) := by
  intro cs
  induction cs with
  | nil => intro p; rfl
  | cons c cs ih =>
    intro p
    cases hc : c.contains p with
    | true =>
      rw [deallocFirstChecked, if_pos hc, deallocFirst, if_pos hc,
        MemoryChunk.deallocateChecked, if_neg (by simp [hc])]
    | false =>
      rw [deallocFirstChecked, if_neg (by simp [hc]), deallocFirst,
        if_neg (by simp [hc]), ih p]

lemma deallocateChecked_eq (s : MemoryPool) (p : Ptr) (sz : Nat) :
    s.deallocateChecked p sz = .ok (s.deallocate p) := by
  rw [MemoryPool.deallocateChecked, deallocFirstChecked_eq]
  rfl

lemma allocFirstChecked_eq : ∀ (cs : List MemoryChunk),
    allocFirstChecked cs = .ok (allocFirst cs) := by
  intro cs
  induction cs with
  | nil => rfl
  | cons c cs ih =>
    cases hsp : c.has_space with
    | true =>
      rw [allocFirstChecked, if_pos hsp, allocFirst, if_pos hsp,
        MemoryChunk.allocateChecked, if_neg (by simp [hsp])]
    | false =>
      rw [allocFirstChecked, if_neg (by simp [hsp]), allocFirst,
        if_neg (by simp [hsp]), ih]
      cases allocFirst cs with
      | none => rfl
      | some r => rfl

lemma allocateChecked_eq (s : MemoryPool) :
    s.allocateChecked 1 = .ok (s.allocate) := by
  rw [MemoryPool.allocateChecked, if_neg (by simp), allocFirstChecked_eq,
    MemoryPool.allocate]
  cases h : allocFirst s.chunks with
  | some r => rfl
  | none =>
    rw [MemoryChunk.allocateChecked, if_neg (by simp [MemoryChunk.has_space, mkChunk, chunkMax])]

lemma id_inj {cs : List MemoryChunk} (h : (cs.map MemoryChunk.id).Nodup)
    {a b : MemoryChunk} (ha : a ∈ cs) (hb : b ∈ cs) (hid : a.id = b.id) :
    a = b :=
  List.inj_on_of_nodup_map h ha hb hid

lemma worldInv_mk (cs : List MemoryChunk) (nid : Nat) (out : List Ptr)
    (h1 : (cs.map MemoryChunk.id).Nodup)
    (h2 : ∀ c ∈ cs, ChunkInv c ∧ c.id < nid)
    (h3 : out.Nodup)
    (h4 : ∀ p ∈ out, ∃ c ∈ cs,
       p.chunkId = c.id ∧ p.slot < chunkMax ∧ p.slot ∉ chainOf c)
    (h5 : ∀ c ∈ cs, c.count ≠ chunkMax) :
    WorldInv ⟨⟨cs, nid⟩, out⟩ :=
  ⟨⟨h1, h2⟩, h3, h4, h5⟩

lemma world_alloc_inv (w : World) (hw : WorldInv w) :
    WorldInv ⟨(w.pool.allocate).1, (w.pool.allocate).2 :: w.out⟩ := by
  obtain ⟨⟨hids, hchunks⟩, hnodup, hout, hnofull⟩ := hw
  cases hAF : allocFirst w.pool.chunks with
  | some r =>
    obtain ⟨cs', p⟩ := r
    have hPool : w.pool.allocate = (⟨cs', w.pool.nextId⟩, p) := by
      rw [MemoryPool.allocate, hAF]
    obtain ⟨l₁, c, l₂, hsplit, hl₁, hspc, hcs', hp⟩ := allocFirst_some hAF
    have hcmem : c ∈ w.pool.chunks := by
      rw [hsplit]; exact List.mem_append_right _ (List.mem_cons_self ..)
    have hcInv : ChunkInv c := (hchunks c hcmem).1
    have hcid : c.id < w.pool.nextId := (hchunks c hcmem).2
    have hchain : chainOf c = c.current :: chainOf (c.allocate).1 :=
      chain_allocate hspc
    have hcur_mem : c.current ∈ chainOf c := by
      rw [hchain]; exact List.mem_cons_self ..
    have hcur_lt : c.current < chunkMax := hcInv.2.1 _ hcur_mem
    have hc1id : (c.allocate).1.id = c.id := rfl
    have hc1mem : (c.allocate).1 ∈ cs' := by
      rw [hcs']; exact List.mem_append_right _ (List.mem_cons_self ..)
    have hpval : p = Ptr.mk c.id c.current := hp
    have hmapid : cs'.map MemoryChunk.id = w.pool.chunks.map MemoryChunk.id := by
      rw [hcs', hsplit]
      simp [hc1id]
    have hmem_cases : ∀ c₀ ∈ cs', c₀ = (c.allocate).1 ∨ c₀ ∈ w.pool.chunks := by
      intro c₀ h₀
      rw [hcs'] at h₀
      rcases List.mem_append.mp h₀ with h1 | h1
      · exact Or.inr (by rw [hsplit]; exact List.mem_append_left _ h1)
      · rcases List.mem_cons.mp h1 with h2 | h2
        · exact Or.inl h2
        · exact Or.inr
            (by rw [hsplit]
                exact List.mem_append_right _ (List.mem_cons_of_mem _ h2))
    have hpnotout : p ∉ w.out := by
      intro hmem
      obtain ⟨c₀, hc₀mem, hcid', hslt, hns⟩ := hout p hmem
      have : c₀ = c := id_inj hids hc₀mem hcmem (by rw [← hcid', hpval])
      rw [this] at hns
      rw [hpval] at hns
      exact hns hcur_mem
    have hcurnot : c.current ∉ chainOf (c.allocate).1 := by
      have := hcInv.2.2
      rw [hchain] at this
      exact (List.nodup_cons.mp this).1
    simp only [hPool]
    refine ⟨⟨?_, ?_⟩, ?_, ?_, ?_⟩
    · rw [hmapid]; exact hids
    · intro c₀ h₀
      rcases hmem_cases c₀ h₀ with h1 | h1
      · rw [h1]
        exact ⟨chunkInv_allocate hcInv hspc, by rw [hc1id]; exact hcid⟩
      · exact hchunks c₀ h1
    · exact List.nodup_cons.mpr ⟨hpnotout, hnodup⟩
    · intro q hq
      rcases List.mem_cons.mp hq with h1 | h1
      · refine ⟨(c.allocate).1, hc1mem, ?_, ?_, ?_⟩
        · rw [h1, hpval, hc1id]
        · rw [h1, hpval]; exact hcur_lt
        · rw [h1, hpval]; exact hcurnot
      · obtain ⟨c₀, hc₀mem, hcid', hslt, hns⟩ := hout q h1
        rw [hsplit] at hc₀mem
        rcases List.mem_append.mp hc₀mem with h2 | h2
        · exact ⟨c₀, by rw [hcs']; exact List.mem_append_left _ h2,
            hcid', hslt, hns⟩
        · rcases List.mem_cons.mp h2 with h3 | h3
          · refine ⟨(c.allocate).1, hc1mem, ?_, hslt, ?_⟩
            · rw [hcid', h3, hc1id]
            · intro hmem
              apply hns
              rw [h3, hchain]
              exact List.mem_cons_of_mem _ hmem
          · exact ⟨c₀,
              by rw [hcs']
                 exact List.mem_append_right _ (List.mem_cons_of_mem _ h3),
              hcid', hslt, hns⟩
    · intro c₀ h₀
      rcases hmem_cases c₀ h₀ with h1 | h1
      · rw [h1]
        show c.count - 1 ≠ chunkMax
        have h2 := count_le_chunkMax hcInv
        have h3 := has_space_iff.mp hspc
        omega
      · exact hnofull c₀ h1
  | none =>
    have hPool : w.pool.allocate =
        (⟨w.pool.chunks ++ [((mkChunk w.pool.nextId).allocate).1],
          w.pool.nextId + 1⟩, ((mkChunk w.pool.nextId).allocate).2) := by
      rw [MemoryPool.allocate, hAF]
    have hs0 : (mkChunk w.pool.nextId).has_space = true := rfl
    have hInv1 : ChunkInv ((mkChunk w.pool.nextId).allocate).1 :=
      chunkInv_allocate (chunkInv_mkChunk _) hs0
    have hchain0 : chainOf (mkChunk w.pool.nextId) =
        0 :: chainOf ((mkChunk w.pool.nextId).allocate).1 := chain_allocate hs0
    have hznot : 0 ∉ chainOf ((mkChunk w.pool.nextId).allocate).1 := by
      have := (chunkInv_mkChunk w.pool.nextId).2.2
      rw [hchain0] at this
      exact (List.nodup_cons.mp this).1
    have hpval : ((mkChunk w.pool.nextId).allocate).2 =
        Ptr.mk w.pool.nextId 0 := rfl
    have hc1id : ((mkChunk w.pool.nextId).allocate).1.id = w.pool.nextId := rfl
    simp only [hPool]
    refine worldInv_mk
      (w.pool.chunks ++ [((mkChunk w.pool.nextId).allocate).1])
      (w.pool.nextId + 1)
      (((mkChunk w.pool.nextId).allocate).2 :: w.out) ?_ ?_ ?_ ?_ ?_
    · rw [List.map_append]
      refine List.nodup_append.mpr ⟨hids, by simp, ?_⟩
      intro i hi
      simp only [List.map_cons, List.map_nil, hc1id]
      obtain ⟨c₀, hc₀mem, hc₀id⟩ := List.mem_map.mp hi
      have := (hchunks c₀ hc₀mem).2
      simp only [List.mem_singleton]
      omega
    · intro c₀ h₀
      rcases List.mem_append.mp h₀ with h1 | h1
      · obtain ⟨h2, h3⟩ := hchunks c₀ h1
        exact ⟨h2, by omega⟩
      · rw [List.mem_singleton.mp h1]
        exact ⟨hInv1, by rw [hc1id]; omega⟩
    · refine List.nodup_cons.mpr ⟨?_, hnodup⟩
      intro hmem
      obtain ⟨c₀, hc₀mem, hcid', hslt, hns⟩ := hout _ hmem
      rw [hpval] at hcid'
      have := (hchunks c₀ hc₀mem).2
      simp at hcid'
      omega
    · intro q hq
      rcases List.mem_cons.mp hq with h1 | h1
      · refine ⟨((mkChunk w.pool.nextId).allocate).1,
          List.mem_append_right _ (List.mem_singleton_self _), ?_, ?_, ?_⟩
        · rw [h1, hpval, hc1id]
        · rw [h1, hpval]; show 0 < chunkMax; decide
        · rw [h1, hpval]; exact hznot
      · obtain ⟨c₀, hc₀mem, hcid', hslt, hns⟩ := hout q h1
        exact ⟨c₀, List.mem_append_left _ hc₀mem, hcid', hslt, hns⟩
    · intro c₀ h₀
      rcases List.mem_append.mp h₀ with h1 | h1
      · exact hnofull c₀ h1
      · rw [List.mem_singleton.mp h1]
        show chunkMax - 1 ≠ chunkMax
        decide

lemma world_dealloc_inv (w : World) (p : Ptr) (hw : WorldInv w)
    (hp : p ∈ w.out) : WorldInv ⟨w.pool.deallocate p, w.out.erase p⟩ := by
  obtain ⟨⟨hids, hchunks⟩, hnodup, hout, hnofull⟩ := hw
  obtain ⟨c, hcmem, hcid, hslt, hns⟩ := hout p hp
  obtain ⟨l₁, l₂, hsplit⟩ := List.append_of_mem hcmem
  have hcInv : ChunkInv c := (hchunks c hcmem).1
  have hcidlt : c.id < w.pool.nextId := (hchunks c hcmem).2
  have hidsplit : (l₁.map MemoryChunk.id ++
      (c.id :: l₂.map MemoryChunk.id)).Nodup := by
    simpa [hsplit] using hids
  have hl₁id : ∀ c₀ ∈ l₁, c₀.id ≠ c.id := by
    intro c₀ h₀ he
    exact (List.nodup_append.mp hidsplit).2.2
      (List.mem_map_of_mem _ h₀) (by rw [he]; exact List.mem_cons_self ..)
  have hl₁ : ∀ c₀ ∈ l₁, c₀.contains p = false := by
    intro c₀ h₀
    have hne : (p.chunkId == c₀.id) = false := by
      simp only [beq_eq_false_iff_ne, ne_eq, hcid]
      exact fun h => hl₁id c₀ h₀ h.symm
    simp [MemoryChunk.contains, hne]
  have hcont : c.contains p = true := contains_iff.mpr ⟨hcid, hslt⟩
  have hD : deallocFirst w.pool.chunks p = l₁ ++
      (if (c.deallocate p).is_free then l₂ else (c.deallocate p) :: l₂) := by
    rw [hsplit]
    exact deallocFirst_split l₁ l₂ hl₁ hcont
  have hchain' : chainOf (c.deallocate p) = p.slot :: chainOf c :=
    chain_deallocate hcInv hslt hns
  have hInv' : ChunkInv (c.deallocate p) := chunkInv_deallocate hcInv hslt hns
  have hdid : (c.deallocate p).id = c.id := rfl
  have hdcount : (c.deallocate p).count = c.count + 1 := rfl
  have hqp : ∀ q : Ptr, q.chunkId = c.id → q.slot = p.slot → q = p := by
    intro q h1 h2
    have h3 : q.chunkId = p.chunkId := by rw [h1, hcid]
    cases q
    cases p
    simp_all
  have herase : ∀ q ∈ w.out.erase p, q ≠ p ∧ q ∈ w.out :=
    fun q hq => (List.Nodup.mem_erase_iff hnodup).mp hq
  have hmem_lr : ∀ c₀, c₀ ∈ w.pool.chunks → c₀ ≠ c → c₀ ∈ l₁ ++ l₂ := by
    intro c₀ h₀ hne
    rw [hsplit] at h₀
    rcases List.mem_append.mp h₀ with h1 | h1
    · exact List.mem_append_left _ h1
    · rcases List.mem_cons.mp h1 with h2 | h2
      · exact absurd h2 hne
      · exact List.mem_append_right _ h2
  cases hfree : (c.deallocate p).is_free with
  | true =>
    have hgoal : w.pool.deallocate p = ⟨l₁ ++ l₂, w.pool.nextId⟩ := by
      rw [MemoryPool.deallocate, hD, if_pos hfree]
    have hfull : ∀ i, i < chunkMax → i ∈ chainOf (c.deallocate p) :=
      fun i hi => chunk_full_mem hInv' (is_free_iff.mp hfree) hi
    rw [hgoal]
    refine worldInv_mk (l₁ ++ l₂) w.pool.nextId (w.out.erase p) ?_ ?_ ?_ ?_ ?_
    · refine List.Nodup.sublist ?_ hids
      refine List.Sublist.map _ ?_
      rw [hsplit]
      exact List.Sublist.append_left (List.sublist_cons_self ..) _
    · intro c₀ h₀
      refine hchunks c₀ ?_
      rw [hsplit]
      rcases List.mem_append.mp h₀ with h1 | h1
      · exact List.mem_append_left _ h1
      · exact List.mem_append_right _ (List.mem_cons_of_mem _ h1)
    · exact hnodup.erase p
    · intro q hq
      obtain ⟨hqne, hqmem⟩ := herase q hq
      obtain ⟨c₀, hc₀mem, hcid', hslt', hns'⟩ := hout q hqmem
      by_cases hcc : c₀ = c
      · exfalso
        rw [hcc] at hcid' hns'
        have h1 : q.slot ∈ chainOf (c.deallocate p) := hfull q.slot hslt'
        rw [hchain'] at h1
        rcases List.mem_cons.mp h1 with h2 | h2
        · exact hqne (hqp q hcid' h2)
        · exact hns' h2
      · exact ⟨c₀, hmem_lr c₀ hc₀mem hcc, hcid', hslt', hns'⟩
    · intro c₀ h₀
      refine hnofull c₀ ?_
      rw [hsplit]
      rcases List.mem_append.mp h₀ with h1 | h1
      · exact List.mem_append_left _ h1
      · exact List.mem_append_right _ (List.mem_cons_of_mem _ h1)
  | false =>
    have hgoal : w.pool.deallocate p =
        ⟨l₁ ++ (c.deallocate p) :: l₂, w.pool.nextId⟩ := by
      rw [MemoryPool.deallocate, hD, if_neg (by simp [hfree])]
    have hcnt' : (c.deallocate p).count ≠ chunkMax := by
      intro h
      rw [← is_free_iff] at h
      rw [hfree] at h
      exact absurd h (by simp)
    rw [hgoal]
    refine worldInv_mk (l₁ ++ (c.deallocate p) :: l₂) w.pool.nextId
      (w.out.erase p) ?_ ?_ ?_ ?_ ?_
    · have : (l₁ ++ (c.deallocate p) :: l₂).map MemoryChunk.id =
          w.pool.chunks.map MemoryChunk.id := by
        rw [hsplit]
        simp [hdid]
      rw [this]
      exact hids
    · intro c₀ h₀
      rcases List.mem_append.mp h₀ with h1 | h1
      · exact hchunks c₀ (by rw [hsplit]; exact List.mem_append_left _ h1)
      · rcases List.mem_cons.mp h1 with h2 | h2
        · rw [h2, hdid]
          exact ⟨hInv', hcidlt⟩
        · exact hchunks c₀
            (by rw [hsplit]
                exact List.mem_append_right _ (List.mem_cons_of_mem _ h2))
    · exact hnodup.erase p
    · intro q hq
      obtain ⟨hqne, hqmem⟩ := herase q hq
      obtain ⟨c₀, hc₀mem, hcid', hslt', hns'⟩ := hout q hqmem
      by_cases hcc : c₀ = c
      · refine ⟨c.deallocate p,
          List.mem_append_right _ (List.mem_cons_self ..), ?_, hslt', ?_⟩
        · rw [hcid', hcc, hdid]
        · rw [hchain']
          intro h1
          rcases List.mem_cons.mp h1 with h2 | h2
          · exact hqne (hqp q (by rw [hcid', hcc]) h2)
          · rw [hcc] at hns'
            exact hns' h2
      · refine ⟨c₀, ?_, hcid', hslt', hns'⟩
        rcases List.mem_append.mp (hmem_lr c₀ hc₀mem hcc) with h1 | h1
        · exact List.mem_append_left _ h1
        · exact List.mem_append_right _ (List.mem_cons_of_mem _ h1)
    · intro c₀ h₀
      rcases List.mem_append.mp h₀ with h1 | h1
      · exact hnofull c₀ (by rw [hsplit]; exact List.mem_append_left _ h1)
      · rcases List.mem_cons.mp h1 with h2 | h2
        · rw [h2]
          exact hcnt'
        · exact hnofull c₀
            (by rw [hsplit]
                exact List.mem_append_right _ (List.mem_cons_of_mem _ h2))

lemma reach_inv : ∀ w : World, Reach w → WorldInv w := by
  intro w h
  induction h with
  | empty =>
    exact ⟨⟨List.nodup_nil, by simp [emptyPool]⟩, List.nodup_nil,
      by simp, by simp [emptyPool]⟩
  | alloc w _ ih => exact world_alloc_inv w ih
  | dealloc w p _ hp ih => exact world_dealloc_inv w p ih hp

lemma initLoop_full (d : List Nat) (hd : d.length = chunkMax) :
    initLoop d chunkMax = (List.range chunkMax).map (· + 1) := by
  apply List.ext_getElem
  · simp [initLoop_length, hd]
  · intro n h1 h2
    have hn : n < chunkMax := by
      simpa [initLoop_length, hd] using h1
    have h3 : readSlot (initLoop d chunkMax) n =
        if n < chunkMax then n + 1 else readSlot d n :=
      readSlot_initLoop d chunkMax (by rw [hd]) n
    rw [← readSlot_lt h1, h3]
    simp [hn, List.getElem_map, List.getElem_range]

lemma roundtrip_chunks (s : MemoryPool) (h1 : PoolInv s)
    (h2 : ∀ c ∈ s.chunks, c.count ≠ chunkMax) :
    ((s.allocate).1.deallocate (s.allocate).2).chunks = s.chunks := by
  obtain ⟨hids, hchunks⟩ := h1
  cases hAF : allocFirst s.chunks with
  | some r =>
    obtain ⟨cs', p⟩ := r
    have hPool : s.allocate = (⟨cs', s.nextId⟩, p) := by
      rw [MemoryPool.allocate, hAF]
    obtain ⟨l₁, c, l₂, hsplit, hl₁, hspc, hcs', hp⟩ := allocFirst_some hAF
    have hcmem : c ∈ s.chunks := by
      rw [hsplit]; exact List.mem_append_right _ (List.mem_cons_self ..)
    have hcInv : ChunkInv c := (hchunks c hcmem).1
    have hchain : chainOf c = c.current :: chainOf (c.allocate).1 :=
      chain_allocate hspc
    have hcur_mem : c.current ∈ chainOf c := by
      rw [hchain]; exact List.mem_cons_self ..
    have hcur_lt : c.current < chunkMax := hcInv.2.1 _ hcur_mem
    have hidsplit : (l₁.map MemoryChunk.id ++
        (c.id :: l₂.map MemoryChunk.id)).Nodup := by
      simpa [hsplit] using hids
    have hl₁id : ∀ c₀ ∈ l₁, c₀.id ≠ c.id := by
      intro c₀ h₀ he
      exact (List.nodup_append.mp hidsplit).2.2
        (List.mem_map_of_mem _ h₀) (by rw [he]; exact List.mem_cons_self ..)
    have hpval : p = Ptr.mk c.id c.current := hp
    have hl₁' : ∀ c₀ ∈ l₁, c₀.contains p = false := by
      intro c₀ h₀
      have hne : (p.chunkId == c₀.id) = false := by
        simp only [beq_eq_false_iff_ne, ne_eq, hpval]
        exact fun h => hl₁id c₀ h₀ h.symm
      simp [MemoryChunk.contains, hne]
    have hcont1 : (c.allocate).1.contains p = true :=
      contains_iff.mpr ⟨by rw [hpval]; rfl, by rw [hpval]; exact hcur_lt⟩
    have hrestore : (c.allocate).1.deallocate p = c := by
      rw [hpval]
      show MemoryChunk.mk c.id
        (c.data.set c.current (readSlot c.data c.current)) c.current
        (c.count - 1 + 1) = c
      rw [set_readSlot_self c.data c.current (by rw [hcInv.1]; exact hcur_lt)]
      have hcnt : c.count - 1 + 1 = c.count := by
        have := has_space_iff.mp hspc
        omega
      rw [hcnt]
    have hfree : ((c.allocate).1.deallocate p).is_free = false := by
      rw [hrestore]
      simp only [MemoryChunk.is_free, beq_eq_false_iff_ne, ne_eq]
      exact h2 c hcmem
    rw [hPool]
    show (MemoryPool.deallocate ⟨cs', s.nextId⟩ p).chunks = s.chunks
    rw [MemoryPool.deallocate]
    show deallocFirst cs' p = s.chunks
    rw [hcs', deallocFirst_split l₁ l₂ hl₁' hcont1, if_neg (by simp [hfree]),
      hrestore, ← hsplit]
  | none =>
    have hPool : s.allocate =
        (⟨s.chunks ++ [((mkChunk s.nextId).allocate).1], s.nextId + 1⟩,
         ((mkChunk s.nextId).allocate).2) := by
      rw [MemoryPool.allocate, hAF]
    have hpval : ((mkChunk s.nextId).allocate).2 = Ptr.mk s.nextId 0 := rfl
    have hl₁' : ∀ c₀ ∈ s.chunks,
        c₀.contains ((mkChunk s.nextId).allocate).2 = false := by
      intro c₀ h₀
      have hlt : c₀.id < s.nextId := (hchunks c₀ h₀).2
      have hne : (((mkChunk s.nextId).allocate).2.chunkId == c₀.id) = false := by
        rw [hpval]
        simp only [beq_eq_false_iff_ne, ne_eq]
        omega
      simp [MemoryChunk.contains, hne]
    have hcont1 : ((mkChunk s.nextId).allocate).1.contains
        ((mkChunk s.nextId).allocate).2 = true := by
      rw [hpval]
      refine contains_iff.mpr ⟨rfl, ?_⟩
      show 0 < chunkMax
      decide
    have hfree : (((mkChunk s.nextId).allocate).1.deallocate
        ((mkChunk s.nextId).allocate).2).is_free = true := rfl
    rw [hPool]
    show (MemoryPool.deallocate
      ⟨s.chunks ++ [((mkChunk s.nextId).allocate).1], s.nextId + 1⟩
      ((mkChunk s.nextId).allocate).2).chunks = s.chunks
    rw [MemoryPool.deallocate]
    show deallocFirst (s.chunks ++ [((mkChunk s.nextId).allocate).1])
      ((mkChunk s.nextId).allocate).2 = s.chunks
    rw [show (s.chunks ++ [((mkChunk s.nextId).allocate).1]) =
        (s.chunks ++ ((mkChunk s.nextId).allocate).1 :: []) from rfl,
      deallocFirst_split s.chunks [] hl₁' hcont1, if_pos hfree,
      List.append_nil]

/-- C1 counterexample: in checked mode, `deallocate` on a pool with one
chunk (buffer id 0), given a pointer owned by no chunk, returns normally
with the pool unchanged — it does not raise `InvalidPointer`, because
`MemoryPool::deallocate`'s scan loop simply falls through when no chunk
contains the pointer. -/
theorem C1_counterexample :
    (emptyPool.reserve 1).deallocateChecked ⟨5, 0⟩ 1 =
      Except.ok (emptyPool.reserve 1) ∧
    (emptyPool.reserve 1).deallocateChecked ⟨5, 0⟩ 1 ≠
      Except.error PoolError.InvalidPointer :=
  ⟨rfl, fun h => nomatch h⟩

/-- C1 (amended): in checked mode, calling the pool's `deallocate` with an
address not owned by any chunk raises nothing and is a silent no-op: the
call returns successfully with every chunk (and the chunk sequence) left
exactly unchanged. -/
theorem C1_unowned_dealloc_is_noop (s : MemoryPool) (p : Ptr) (sz : Nat)
    (h : ∀ c ∈ s.chunks, c.contains p = false) :
    s.deallocateChecked p sz = Except.ok s := by
  rw [deallocateChecked_eq, MemoryPool.deallocate, deallocFirst_id h]

/-- Witness for C1: a concrete unowned pointer on a one-chunk pool. -/
theorem C1_witness :
    (emptyPool.reserve 1).deallocateChecked ⟨9, 3⟩ 7 =
      Except.ok (emptyPool.reserve 1) :=
  C1_unowned_dealloc_is_noop (emptyPool.reserve 1) ⟨9, 3⟩ 7 (by decide)

/-- C2 counterexample: `reserve(255)` on an empty pool — a
contract-respecting operation sequence — leaves the pool holding exactly
one chunk whose `free_count` is 255, so the claimed invariant fails for
sequences that include `reserve`. -/
theorem C2_counterexample :
    (emptyPool.reserve 255).chunks.map MemoryChunk.count = [255] := rfl

/-- C2 (amended): in every pool state reachable from the empty pool by
contract-respecting `allocate` and `deallocate` calls (no `reserve`), no
chunk of the pool has `free_count = 255`: `deallocate` erases a chunk the
moment it becomes fully free.  `reserve`, however, appends fully free
chunks, so the invariant does not extend to sequences containing it. -/
theorem C2_no_full_chunk_reachable (w : World) (h : Reach w) :
    ∀ c ∈ w.pool.chunks, c.count ≠ chunkMax :=
  (reach_inv w h).2.2.2

/-- Witness for C2: the single chunk present after one allocation. -/
theorem C2_witness : (MemoryChunk.mk 0 initData 1 254).count ≠ chunkMax :=
  C2_no_full_chunk_reachable
    ⟨(emptyPool.allocate).1, [(emptyPool.allocate).2]⟩
    (Reach.alloc ⟨emptyPool, []⟩ Reach.empty)
    (MemoryChunk.mk 0 initData 1 254) (by decide)

/-- C3: on an empty pool, allocate `p1, p2, p3`, free `p2`; the next
allocation returns a pointer equal to `p2` (the most recently freed slot
is reused first, because the free list is a LIFO stack). -/
theorem C3_lifo_reuse :
    (let r1 := emptyPool.allocate
     let r2 := r1.1.allocate
     let r3 := r2.1.allocate
     let s4 := r3.1.deallocate r2.2
     let r4 := s4.allocate
     r4.2 = r2.2) := rfl

/-- C4 counterexample: the state reached by `reserve(1)` on an empty pool
respects the contract and has one (fully free) chunk; `allocate()`
immediately followed by `deallocate()` of the returned pointer then erases
that chunk, leaving 0 chunks — the chunk count is not preserved. -/
theorem C4_counterexample :
    (emptyPool.reserve 1).chunks.length = 1 ∧
    (((emptyPool.reserve 1).allocate).1.deallocate
        ((emptyPool.reserve 1).allocate).2).chunks.length = 0 :=
  ⟨rfl, rfl⟩

/-- C4 (amended): for every structurally healthy pool state in which no
chunk is fully free (every state reachable by `allocate`/`deallocate`
alone satisfies this; states built by `reserve` need not), `allocate()`
immediately followed by `deallocate()` of the returned pointer restores
the chunk sequence exactly: chunk count and each chunk's free-slot count
are unchanged. -/
theorem C4_roundtrip (s : MemoryPool) (h1 : PoolInv s)
    (h2 : ∀ c ∈ s.chunks, c.count ≠ chunkMax) :
    ((s.allocate).1.deallocate (s.allocate).2).chunks = s.chunks ∧
    ((s.allocate).1.deallocate (s.allocate).2).chunks.map MemoryChunk.count =
      s.chunks.map MemoryChunk.count ∧
    ((s.allocate).1.deallocate (s.allocate).2).chunks.length =
      s.chunks.length := by
  have h := roundtrip_chunks s h1 h2
  exact ⟨h, by rw [h], by rw [h]⟩

/-- Witness for C4: the empty pool round-trips back to zero chunks. -/
theorem C4_witness :
    ((emptyPool.allocate).1.deallocate (emptyPool.allocate).2).chunks =
      emptyPool.chunks :=
  (C4_roundtrip emptyPool ⟨by simp [emptyPool], by simp [emptyPool]⟩
    (by simp [emptyPool])).1

/-- C5: allocating exactly 255 objects from an empty pool yields exactly
one chunk, fully occupied (`has_space() = false`, `free_count = 0`); the
256th allocation appends a second chunk. -/
theorem C5_capacity_boundary :
    (allocN 255 emptyPool).chunks.map MemoryChunk.has_space = [false] ∧
    (allocN 255 emptyPool).chunks.map MemoryChunk.count = [0] ∧
    (allocN 255 emptyPool).chunks.length = 1 ∧
    (allocN 256 emptyPool).chunks.length = 2 :=
  ⟨rfl, rfl, rfl, rfl⟩

/-- C6: `reserve(n)` leaves the pool with chunk count at least
`ceil(n / 255)` (the target `ceilChunks n` is exactly that ceiling);
existing chunks are untouched, every appended chunk is fully free (no
slot allocation is performed), the call is a no-op when the target does
not exceed the current chunk count, and `reserve(500)` on an empty pool
produces exactly 2 chunks. -/
theorem C6_reserve_properties (s : MemoryPool) (n : Nat) :
    ceilChunks n = (n + chunkMax - 1) / chunkMax ∧
    ceilChunks n ≤ (s.reserve n).chunks.length ∧
    (s.reserve n).chunks.take s.chunks.length = s.chunks ∧
    (∀ c ∈ (s.reserve n).chunks.drop s.chunks.length, c.count = chunkMax) ∧
    (ceilChunks n ≤ s.chunks.length → s.reserve n = s) ∧
    (emptyPool.reserve 500).chunks.length = 2 := by
  have hceil : ceilChunks n = (n + chunkMax - 1) / chunkMax := by
    rw [ceilChunks]
    show (if n % 255 == 0 then n / 255 else n / 255 + 1) = (n + 255 - 1) / 255
    by_cases h : n % 255 = 0
    · rw [if_pos (by simpa using h)]
      omega
    · rw [if_neg (by simpa using h)]
      omega
  by_cases hlt : s.chunks.length < ceilChunks n
  · have hres : s.reserve n =
        ⟨s.chunks ++ (List.range (ceilChunks n - s.chunks.length)).map
           (fun i => mkChunk (s.nextId + i)),
         s.nextId + (ceilChunks n - s.chunks.length)⟩ := by
      rw [MemoryPool.reserve, if_pos hlt]
    have hlen : (s.reserve n).chunks.length = ceilChunks n := by
      rw [hres]
      simp only [List.length_append, List.length_map, List.length_range]
      omega
    refine ⟨hceil, by omega, ?_, ?_, fun hle => absurd hlt (by omega), rfl⟩
    · rw [hres]
      exact List.take_left ..
    · rw [hres]
      show ∀ c ∈ (s.chunks ++ _).drop s.chunks.length, c.count = chunkMax
      rw [List.drop_left]
      intro c hc
      obtain ⟨i, _, rfl⟩ := List.mem_map.mp hc
      rfl
  · have hres : s.reserve n = s := by
      rw [MemoryPool.reserve, if_neg hlt]
    refine ⟨hceil, by rw [hres]; omega, ?_, ?_, fun _ => hres, rfl⟩
    · rw [hres]
      exact List.take_length s.chunks
    · rw [hres, List.drop_length]
      simp

/-- Witness for C6: `reserve(255)` is a no-op on a pool that already has
two chunks. -/
theorem C6_witness :
    (emptyPool.reserve 500).reserve 255 = emptyPool.reserve 500 :=
  (C6_reserve_properties (emptyPool.reserve 500) 255).2.2.2.2.1 (by decide)

/-- C7 counterexample: in checked mode, calling `deallocate` with
`count = 2` on a live allocation does not signal `InvalidSize` — the
deallocation is performed normally, because `MemoryPool::deallocate`
never inspects its `size` parameter (`[[maybe_unused]]`). -/
theorem C7_counterexample :
    (emptyPool.allocate).1.deallocateChecked (emptyPool.allocate).2 2 =
      Except.ok (MemoryPool.mk [] 1) ∧
    (emptyPool.allocate).1.deallocateChecked (emptyPool.allocate).2 2 ≠
      Except.error PoolError.InvalidSize :=
  ⟨rfl, fun h => nomatch h⟩

/-- C7 (amended): in checked mode, `allocate(count)` with any `count ≠ 1`
signals `InvalidSize`; `deallocate(pointer, count)`, however, performs no
size validation at all — its result is identical for every `count`
(`count = 1` is a documented precondition but is not enforced). -/
theorem C7_size_validation (s : MemoryPool) (sz : Nat) (p : Ptr)
    (h : sz ≠ 1) :
    s.allocateChecked sz = Except.error PoolError.InvalidSize ∧
    s.deallocateChecked p sz = s.deallocateChecked p 1 := by
  constructor
  · rw [MemoryPool.allocateChecked, if_pos (by simpa using h)]
  · rfl

/-- Witness for C7: `count = 2` on the empty pool. -/
theorem C7_witness :
    emptyPool.allocateChecked 2 = Except.error PoolError.InvalidSize ∧
    emptyPool.deallocateChecked ⟨0, 0⟩ 2 =
      emptyPool.deallocateChecked ⟨0, 0⟩ 1 :=
  ⟨(C7_size_validation emptyPool 2 ⟨0, 0⟩ (by decide)).1,
   (C7_size_validation emptyPool 2 ⟨0, 0⟩ (by decide)).2⟩

/-- C8: for every world reachable by a contract-respecting sequence of
`allocate`/`deallocate` calls on one pool, the pointers simultaneously
outstanding are pairwise distinct. -/
theorem C8_outstanding_distinct (w : World) (h : Reach w) : w.out.Nodup :=
  (reach_inv w h).2.1

/-- Witness for C8: two allocations from the empty pool give distinct
outstanding pointers. -/
theorem C8_witness :
    (World.mk ((emptyPool.allocate).1.allocate).1
      [((emptyPool.allocate).1.allocate).2, (emptyPool.allocate).2]).out.Nodup :=
  C8_outstanding_distinct
    ⟨((emptyPool.allocate).1.allocate).1,
     [((emptyPool.allocate).1.allocate).2, (emptyPool.allocate).2]⟩
    (Reach.alloc ⟨(emptyPool.allocate).1, [(emptyPool.allocate).2]⟩
      (Reach.alloc ⟨emptyPool, []⟩ Reach.empty))

/-- C9: a newly constructed chunk has all 255 slots free (`count = 255`,
list head at slot 0); the constructor loop initializes exactly the 255
slots 0..254 — whatever garbage the buffer held, after the loop slot `i`
stores `i + 1`, so the free list is pre-linked `0 → 1 → … → 254` and the
last slot stores the terminator value 255; the loop writes nothing at any
index ≥ 255 and preserves the buffer length. -/
theorem C9_constructor (id : Nat) :
    (mkChunk id).count = chunkMax ∧
    (mkChunk id).current = 0 ∧
    (∀ d : List Nat, d.length = chunkMax →
       initLoop d chunkMax = (List.range chunkMax).map (· + 1)) ∧
    chainOf (mkChunk id) = List.range chunkMax ∧
    readSlot (mkChunk id).data (chunkMax - 1) = chunkMax ∧
    (∀ d : List Nat, ∀ i, chunkMax ≤ i →
       readSlot (initLoop d chunkMax) i = readSlot d i) ∧
    (∀ d : List Nat, (initLoop d chunkMax).length = d.length) := by
  refine ⟨rfl, rfl, initLoop_full, chainOf_mkChunk id, ?_, ?_, ?_⟩
  · show readSlot initData (chunkMax - 1) = chunkMax
    decide
  · exact fun d i h => readSlot_initLoop_ge d chunkMax i h
  · exact fun d => initLoop_length d chunkMax

/-- Witness for C9: the loop run on a buffer full of garbage value 3. -/
theorem C9_witness :
    initLoop (List.replicate chunkMax 3) chunkMax =
      (List.range chunkMax).map (· + 1) :=
  (C9_constructor 7).2.2.1 (List.replicate chunkMax 3) (by simp)

/-- C10: rebinding a pool of element type `T` in group `G` to a target
type `U` yields `MemoryPool<U>` with the defaulted group `0`: the group
tag is always discarded, so for `G ≠ 0` the rebound pool's `get_chunks`
key `(U, 0)` does not carry the original group. -/
theorem C10_rebind_discards_group (t : String) (g : Nat) (u : String) :
    (PoolType.mk t g).rebind u = PoolType.mk u 0 ∧
    (g ≠ 0 → ((PoolType.mk t g).rebind u).group ≠ g) := by
  refine ⟨rfl, ?_⟩
  intro hg
  show (0 : Nat) ≠ g
  exact fun h => hg h.symm

/-- Witness for C10: rebinding a group-3 pool of `A` to `B`. -/
theorem C10_witness :
    (PoolType.mk "A" 3).rebind "B" = PoolType.mk "B" 0 ∧
    ((PoolType.mk "A" 3).rebind "B").group ≠ 3 :=
  ⟨(C10_rebind_discards_group "A" 3 "B").1,
   (C10_rebind_discards_group "A" 3 "B").2 (by decide)⟩
